import Mathlib

/-!
Shallow embedding of the retrieval pipeline of the `search-engine` repository
(chunking, embedding, in-memory / Qdrant document stores, candidate scoring,
reranking, and the search orchestrators), together with theorems settling the
spec claims.  Every definition is translated from the TypeScript source;
network calls (Cohere / Gemini / Ollama / Qdrant requests) are abstracted as
explicit outcome parameters of type `Except JsError _`, matching the
try/catch structure of the source.
-/

namespace SearchEngine

/-- A thrown JavaScript value: either an `Error` object carrying a message
(the only case the sources construct), or some non-`Error` value, which the
catch blocks of the sources treat differently (`error instanceof Error`). -/
inductive JsError where
  | errObj (msg : String)
  | nonError
deriving DecidableEq, Repr, Inhabited

/-- The `StoredDocument` interface of `document-store.ts`: a chunk with its
metadata and an optional embedding vector. -/
structure StoredDocument where
  id : String
  filename : String
  content : String
  chunkIndex : Option Int := none
  parentDocumentId : Option String := none
  embedding : Option (List ℝ) := none
deriving Inhabited

/-- The `DocumentForRerank` interface of `cohere-service.ts` /
`gemini-service.ts` (we keep only the fields the claims touch). -/
structure DocumentForRerank where
  id : String
  content : String
  filename : String := ""
  chunkIndex : Option Int := none
deriving DecidableEq, Repr, Inhabited

/-- A reranked document: `DocumentForRerank & \x7b relevance_score \x7d`.
Relevance scores are parsed JSON numbers; we model them as rationals. -/
structure RerankedDocument where
  doc : DocumentForRerank
  relevance_score : ℚ
deriving DecidableEq, Repr, Inhabited

/-- The search-result record built by `searchDocuments` /
`searchDocumentsWithGemini` (`\x7bid, title, content, ..., score\x7d`). -/
structure SearchResult where
  id : String
  title : String
  content : String
  chunkIndex : Option Int := none
  score : ℚ
deriving DecidableEq, Repr, Inhabited

/-! ## In-memory document store (`document-store.ts`, both variants)

A JavaScript `Map` is modelled as an insertion-ordered association list with
unique keys.  `Map.set` replaces in place when the key exists and appends
otherwise. -/

/-- `documentStore.set(k, v)` on a JS `Map` modelled as an ordered
association list. -/
def mapSet (store : List (String × StoredDocument)) (k : String)
    (v : StoredDocument) : List (String × StoredDocument) :=
  if store.any (fun p => p.1 = k) then
    store.map (fun p => if p.1 = k then (k, v) else p)
  else
    store ++ [(k, v)]

/-- `storeDocument` of the in-memory `document-store.ts`:
`documentStore.set(document.id, document)` with no check of any kind. -/
def storeDocument (store : List (String × StoredDocument))
    (document : StoredDocument) : List (String × StoredDocument) :=
  mapSet store document.id document

/-- `getDocument(id)`: `documentStore.get(id)`. -/
def getDocument (store : List (String × StoredDocument)) (id : String) :
    Option StoredDocument :=
  (store.find? (fun p => p.1 = id)).map (fun p => p.2)

/-- `getAllDocuments()`: `Array.from(documentStore.values())`. -/
def getAllDocuments (store : List (String × StoredDocument)) :
    List StoredDocument :=
  store.map (fun p => p.2)

/-- The predicate selecting the entries `deleteDocumentsByParentId` deletes:
`doc.parentDocumentId === parentId || doc.id === parentId`. -/
def matchesParent (parentId : String) (p : String × StoredDocument) : Prop :=
  p.2.parentDocumentId = some parentId ∨ p.2.id = parentId

instance (parentId : String) (p : String × StoredDocument) :
    Decidable (matchesParent parentId p) := by
  unfold matchesParent; infer_instance

/-- `deleteDocumentsByParentId(parentId)` of the in-memory store: collect the
keys of all entries whose `parentDocumentId` or own `id` equals `parentId`,
delete those keys, and return how many were collected.  Returns the count
together with the store after deletion. -/
def deleteDocumentsByParentId (store : List (String × StoredDocument))
    (parentId : String) : ℕ × List (String × StoredDocument) :=
  let toDelete :=
    (store.filter (fun p => decide (matchesParent parentId p))).map
      (fun p => p.1)
  (toDelete.length, store.filter (fun p => ¬ p.1 ∈ toDelete))

/-! ## Qdrant-backed document store (`embeddings.ts`, second part)

`storeDocument` first checks `document.embedding` and throws
`Error('Document must have an embedding to be stored')` when it is absent;
otherwise it upserts into Qdrant, rewrapping an upsert failure. -/

/-- `storeDocument` of the Qdrant store, with the `qdrantClient.upsert`
outcome abstracted as a parameter. -/
def storeDocumentQdrant (document : StoredDocument)
    (upsert : Except JsError Unit) : Except JsError Unit :=
  match document.embedding with
  | none => .error (.errObj "Document must have an embedding to be stored")
  | some _ =>
    match upsert with
    | .ok _ => .ok ()
    | .error e =>
      .error (.errObj ("Failed to store document: " ++
        match e with
        | .errObj msg => msg
        | .nonError => "Unknown error"))

/-! ## Embedding providers (`embeddings.ts` first part, `ollama-embeddings`
importer `part_001`)

Both `generateEmbedding` variants wrap the provider call in try/catch and, on
any error, return a *random* vector of the provider's dimensionality instead
of rethrowing.  The provider call and the random source are parameters. -/

/-- `generateEmbedding` of `embeddings.ts`: transformers.js pipeline call
abstracted as `provider`; on any error returns
`Array.from(\x7blength: 384\x7d, () => Math.random())`. -/
def generateEmbedding (provider : Except JsError (List ℚ))
    (random : ℕ → ℚ) : Except JsError (List ℚ) :=
  match provider with
  | .ok v => .ok v
  | .error _ => .ok ((List.range 384).map random)

/-- The Ollama-backed `generateEmbedding` (`part_001`): same shape with a
768-dimensional random fallback. -/
def generateEmbeddingOllama (provider : Except JsError (List ℚ))
    (random : ℕ → ℚ) : Except JsError (List ℚ) :=
  match provider with
  | .ok v => .ok v
  | .error _ => .ok ((List.range 768).map random)

/-! ## Cosine similarity

Three copies of `cosineSimilarity` exist in the sources.  The one private to
`document-store.ts` logs a warning and returns `0` on a length mismatch; the
exported ones in `cohere-service.ts` and `gemini-service.ts` throw
`Error('Vectors must have the same length')` instead.  Vector components live
in ℝ because the computation takes square roots. -/

/-- The running dot product of the `for` loop shared by every
`cosineSimilarity` copy. -/
def dotProduct (a b : List ℝ) : ℝ :=
  (List.zipWith (· * ·) a b).sum

/-- The running squared norm of the same loop. -/
def sumSquares (a : List ℝ) : ℝ :=
  (a.map (fun x => x * x)).sum

/-- `cosineSimilarity` of `document-store.ts`: on a length mismatch it logs
`Vector length mismatch` and returns `0`; with a zero denominator it returns
`0`; otherwise `dot / (sqrt(normA) * sqrt(normB))`. -/
noncomputable def cosineSimilarityStore (vecA vecB : List ℝ) : ℝ :=
  if vecA.length ≠ vecB.length then 0
  else
    let denominator := Real.sqrt (sumSquares vecA) * Real.sqrt (sumSquares vecB)
    if denominator = 0 then 0
    else dotProduct vecA vecB / denominator

/-- `cosineSimilarity` of `cohere-service.ts` / `gemini-service.ts`: throws
on a length mismatch, otherwise computes the same value. -/
noncomputable def cosineSimilarityService (vecA vecB : List ℝ) :
    Except JsError ℝ :=
  if vecA.length ≠ vecB.length then
    .error (.errObj "Vectors must have the same length")
  else
    let denominator := Real.sqrt (sumSquares vecA) * Real.sqrt (sumSquares vecB)
    if denominator = 0 then .ok 0
    else .ok (dotProduct vecA vecB / denominator)

/-! ## Rerankers

`rerankDocuments` (`cohere-service.ts`) and `rerankDocumentsWithGemini`
(`gemini-service.ts`) both map a parsed provider response — a list of
`(index, relevance_score)` pairs — positionally onto the candidate documents.
Neither sorts.  The network call together with response parsing is abstracted
as an `Except JsError (List (ℕ × ℚ))` parameter; `documents[result.index]`
with an out-of-range index (JS `undefined`, spread into the result object) is
modelled with the default `DocumentForRerank`. -/

/-- `rerankDocuments` of `cohere-service.ts`: key check, empty-candidates
shortcut, then `data.results.map(result => (\x7b...documents[result.index],
relevance_score: result.relevance_score\x7d))` in response order. -/
def rerankDocuments (hasKey : Bool)
    (response : Except JsError (List (ℕ × ℚ)))
    (documents : List DocumentForRerank) (_topN : ℕ) :
    Except JsError (List RerankedDocument) :=
  if !hasKey then .error (.errObj "COHERE_API_KEY is not configured")
  else if documents.isEmpty then .ok []
  else
    match response with
    | .error e =>
      match e with
      | .errObj msg => .error (.errObj msg)
      | .nonError => .error (.errObj "Cohere rerank failed: Unknown error")
    | .ok results =>
      .ok (results.map (fun r =>
        { doc := documents.getD r.1 default, relevance_score := r.2 }))

/-- `rerankDocumentsWithGemini` of `gemini-service.ts`: on a parsed response
it maps `scores.slice(0, topN)` positionally onto the documents; when the
generate call (or the JSON extraction) throws an `Error`, it falls back to
`rerankWithEmbeddings`, whose outcome is the `secondary` parameter; a thrown
non-`Error` value is rewrapped. -/
def rerankDocumentsWithGemini (hasKey : Bool)
    (primary : Except JsError (List (ℕ × ℚ)))
    (secondary : Except JsError (List RerankedDocument))
    (documents : List DocumentForRerank) (topN : ℕ) :
    Except JsError (List RerankedDocument) :=
  if !hasKey then .error (.errObj "GEMINI_API_KEY is not configured")
  else if documents.isEmpty then .ok []
  else
    match primary with
    | .ok scores =>
      .ok ((scores.take topN).map (fun r =>
        { doc := documents.getD r.1 default, relevance_score := r.2 }))
    | .error (.errObj _) => secondary
    | .error .nonError => .error (.errObj "Gemini rerank failed: Unknown error")

/-! ## Search pipelines -/

/-- The conversion of a stored document into `DocumentForRerank` shape
(`allDocs.map(doc => (\x7bid, content, filename, ...\x7d))`). -/
def toDocumentForRerank (doc : StoredDocument) : DocumentForRerank :=
  { id := doc.id, content := doc.content, filename := doc.filename,
    chunkIndex := doc.chunkIndex }

/-- The conversion of a reranked document into the search-result shape,
with the JS falsy defaults `doc.filename || 'Untitled'` and
`doc.content || ''`. -/
def toSearchResult (d : RerankedDocument) : SearchResult :=
  { id := d.doc.id,
    title := if d.doc.filename = "" then "Untitled" else d.doc.filename,
    content := d.doc.content,
    chunkIndex := d.doc.chunkIndex,
    score := d.relevance_score }

/-- The relevance threshold of `searchDocuments` (`cohere-search.ts`):
`const RELEVANCE_THRESHOLD = 0.02`. -/
def RELEVANCE_THRESHOLD : ℚ := 2 / 100

/-- `searchDocuments` of `cohere-search.ts` (the Cohere pipeline): load all
chunks, return `[]` on an empty store, rerank everything, keep results with
`relevance_score >= 0.02`, and map to the result shape.  The `catch` block
rethrows, so a reranker error propagates; the reranker is a parameter (the
source calls `rerankDocuments`). -/
def searchDocuments (store : List (String × StoredDocument))
    (rerank : String → List DocumentForRerank → ℕ →
      Except JsError (List RerankedDocument))
    (query : String) (limit : ℕ) : Except JsError (List SearchResult) :=
  let allDocs := getAllDocuments store
  if allDocs.isEmpty then .ok []
  else
    let docsForRerank := allDocs.map toDocumentForRerank
    match rerank query docsForRerank limit with
    | .error e => .error e
    | .ok rerankedDocs =>
      let filteredDocs :=
        rerankedDocs.filter (fun d => RELEVANCE_THRESHOLD ≤ d.relevance_score)
      .ok (filteredDocs.map toSearchResult)

/-- Stable insertion of a candidate into a list sorted by descending score,
matching the stable JS `sort((a, b) => b.score - a.score)`: the inserted
element (earlier in the input) goes before every element with score `≤` its
own. -/
noncomputable def insertCandidateDesc (x : StoredDocument × ℝ) :
    List (StoredDocument × ℝ) → List (StoredDocument × ℝ)
  | [] => [x]
  | y :: ys => if x.2 < y.2 then y :: insertCandidateDesc x ys else x :: y :: ys

/-- Stable descending sort by score of the stage-1 candidate list. -/
noncomputable def sortByScoreDesc :
    List (StoredDocument × ℝ) → List (StoredDocument × ℝ)
  | [] => []
  | x :: xs => insertCandidateDesc x (sortByScoreDesc xs)

/-- `searchDocumentsWithGemini` of `gemini-search.ts` (the two-stage
pipeline): load all chunks (empty store short-circuits to `[]`), embed the
query (a failure is rethrown by the catch block), score every embedded chunk
with the throwing `cosineSimilarity` of `gemini-service.ts`, sort descending
and keep `Math.min(30, allDocs.length)` candidates, rerank them with
`rerankWithCohere` (absent from the sources; abstracted as a function of the
candidate list), and map the reranked documents to the result shape — with
no relevance-threshold filtering. -/
noncomputable def searchDocumentsWithGemini
    (store : List (String × StoredDocument))
    (queryEmbedding : Except JsError (List ℝ))
    (rerankWithCohere : List DocumentForRerank →
      Except JsError (List RerankedDocument))
    (_query : String) (_limit : ℕ) : Except JsError (List SearchResult) :=
  let allDocs := getAllDocuments store
  if allDocs.isEmpty then .ok []
  else
    match queryEmbedding with
    | .error e => .error e
    | .ok qv =>
      let withEmbedding :=
        allDocs.filterMap (fun d => d.embedding.map (fun e => (d, e)))
      match withEmbedding.mapM (fun p =>
          (cosineSimilarityService qv p.2).map (fun s => (p.1, s))) with
      | .error e => .error e
      | .ok scored =>
        let candidates := (sortByScoreDesc scored).take (min 30 allDocs.length)
        if candidates.isEmpty then .ok []
        else
          let docsForRerank :=
            candidates.map (fun p => toDocumentForRerank p.1)
          match rerankWithCohere docsForRerank with
          | .error e => .error e
          | .ok rerankedDocs => .ok (rerankedDocs.map toSearchResult)

/-! ## HTTP search route (`app/api/search/route.ts`) -/

/-- The reply of the HTTP layer, reduced to status code and the single
string the handler puts in the body on each branch. -/
structure RouteReply where
  status : ℕ
  body : String
deriving DecidableEq, Repr

/-- `POST` of `app/api/search/route.ts`: a missing or empty (falsy) `query`
is rejected with a 400 `Query is required` reply; otherwise the handler runs
`searchDocuments(query, 3)` and `generateAnswer`, whose outcomes are
parameters, and any thrown error becomes a 500 `Internal server error`. -/
def postSearchRoute (query : Option String)
    (searchOutcome : Except JsError (List SearchResult))
    (answerOutcome : Except JsError String) : RouteReply :=
  match query with
  | none => { status := 400, body := "Query is required" }
  | some q =>
    if q = "" then { status := 400, body := "Query is required" }
    else
      match searchOutcome with
      | .error _ => { status := 500, body := "Internal server error" }
      | .ok docs =>
        if docs.isEmpty then
          { status := 200,
            body := "I couldn't find any relevant information for your query. Please try asking about machine learning topics." }
        else
          match answerOutcome with
          | .error _ => { status := 500, body := "Internal server error" }
          | .ok answer => { status := 200, body := answer }

/-! ## Chunker (`splitDocumentIntoChunks`, `file-processor.ts`)

`document.content.split(/\s+/)` splits on maximal whitespace runs: a leading
run contributes a leading `""` element, a trailing run a trailing `""`, and
`"".split(/\s+/)` is `[""]`.  The `for (let i = 0; i < words.length;
i += chunkSize)` loop is modelled with explicit fuel because it does not
terminate for `chunkSize <= 0`. -/

mutual

/-- Accumulating scanner for `split(/\s+/)`: `acc` holds the reversed
characters of the token being read. -/
def splitWSAux : List Char → List Char → List (List Char)
  | [], acc => [acc.reverse]
  | c :: rest, acc =>
    if c.isWhitespace then acc.reverse :: skipWS rest
    else splitWSAux rest (c :: acc)
termination_by cs _ => cs.length

/-- Scanner state inside a whitespace run: a run at the very end of the
string still contributes a final empty token. -/
def skipWS : List Char → List (List Char)
  | [] => [[]]
  | c :: rest =>
    if c.isWhitespace then skipWS rest
    else splitWSAux rest [c]
termination_by cs => cs.length

end

/-- `content.split(/\s+/)` as a list of strings. -/
def splitWhitespace (s : String) : List String :=
  (splitWSAux s.toList []).map (fun cs => String.mk cs)

/-- JS `Array.prototype.slice(start, end)` with its negative-index clamping
(`words.slice(i, i + chunkSize)` sees such indices when `chunkSize < 0`). -/
def jsSlice {α : Type} (l : List α) (start stop : Int) : List α :=
  let len : Int := l.length
  let s := if start < 0 then max (len + start) 0 else min start len
  let e := if stop < 0 then max (len + stop) 0 else min stop len
  (l.take e.toNat).drop s.toNat

/-- The character list of a string after JS `trim()`: leading and trailing
whitespace removed. -/
def trimChars (cs : List Char) : List Char :=
  ((cs.dropWhile Char.isWhitespace).reverse.dropWhile Char.isWhitespace).reverse

/-- JS `Array.prototype.join(' ')`: the elements separated by single
spaces. -/
def joinSpace : List String → String
  | [] => ""
  | [t] => t
  | t :: ts => t ++ " " ++ joinSpace ts

/-- A chunk draft as pushed by `splitDocumentIntoChunks` (the random `id`
and the copied metadata fields are omitted; the claims concern `content` and
`chunkIndex`).  `chunkIndex` is `Math.floor(i / chunkSize)`. -/
structure ChunkDraft where
  content : String
  chunkIndex : Int
deriving DecidableEq, Repr

/-- One execution of the chunking loop of `splitDocumentIntoChunks` with
explicit fuel: `none` means the fuel ran out before the loop exited.  Each
iteration slices `words.slice(i, i + chunkSize)`, joins with single spaces,
pushes `\x7bcontent, chunkIndex: Math.floor(i / chunkSize)\x7d` when the
join is nonempty after trimming, and advances `i += chunkSize`. -/
def chunkLoopFuel (words : List String) (chunkSize : Int) :
    ℕ → Int → List ChunkDraft → Option (List ChunkDraft)
  | 0, _, _ => none
  | fuel + 1, i, acc =>
    if i < (words.length : Int) then
      let chunkWords := jsSlice words i (i + chunkSize)
      let chunkContent := joinSpace chunkWords
      let acc' :=
        if 0 < (trimChars chunkContent.toList).length then
          acc ++ [{ content := chunkContent, chunkIndex := Int.fdiv i chunkSize }]
        else acc
      chunkLoopFuel words chunkSize fuel (i + chunkSize) acc'
    else some acc

/-- `splitDocumentIntoChunks(document, chunkSize)`: split the content on
whitespace and run the window loop.  The fuel `words.length + 1` is enough
for every terminating execution (`chunkSize >= 1` advances `i` by at least
one token per iteration). -/
def splitDocumentIntoChunks (content : String) (chunkSize : Int) :
    Option (List ChunkDraft) :=
  let words := splitWhitespace content
  chunkLoopFuel words chunkSize (words.length + 1) 0 []

/-- The window sequence of the chunking loop for a positive window size,
as a structurally terminating function: window `k` covers tokens
`[k*W, (k+1)*W)` and is pushed exactly when its space-join is nonempty
after trimming. -/
def chunkWindows : ℕ → List String → ℕ → List ChunkDraft
  | _, [], _ => []
  | 0, _ :: _, _ => []
  | W + 1, w :: ws, k =>
    let window := w :: ws.take W
    let chunkContent := joinSpace window
    (if 0 < (trimChars chunkContent.toList).length then
      [{ content := chunkContent, chunkIndex := (k : Int) }]
    else []) ++ chunkWindows (W + 1) (ws.drop W) (k + 1)
termination_by _ l _ => l.length
decreasing_by
  simp only [List.length_cons, List.length_drop]
  omega

/-! ## Shared concrete sample data -/

/-- A sample stored chunk without an embedding. -/
def sampleDoc : StoredDocument :=
  { id := "cv1", filename := "cv.txt", content := "iOS Engineer, Swift, UIKit" }

/-- A sample stored chunk carrying a one-dimensional embedding. -/
def sampleEmbeddedDoc : StoredDocument :=
  { id := "cv1", filename := "cv.txt", content := "iOS Engineer, Swift, UIKit",
    embedding := some [1] }

/-- A first sample rerank candidate. -/
def rerankDocA : DocumentForRerank :=
  { id := "a", content := "iOS Engineer", filename := "a.txt" }

/-- A second sample rerank candidate. -/
def rerankDocB : DocumentForRerank :=
  { id := "b", content := "Android Engineer", filename := "b.txt" }

/-! ## C1: query-embedding failure -/

/-- C1 (counterexample): with the backing service unreachable,
`generateEmbedding` does not fail at all — it returns an ok 384-entry
vector built from the random source, so no error exists for `search` to
propagate. -/
theorem generateEmbedding_unreachable_returns_ok_vector :
    (generateEmbedding (.error (.errObj "service unreachable"))
      (fun _ => (1 : ℚ)/2)).isOk = true ∧
    generateEmbedding (.error (.errObj "service unreachable"))
      (fun _ => (1 : ℚ)/2) = .ok (List.replicate 384 ((1 : ℚ)/2)) := by
  refine ⟨rfl, ?_⟩
  show Except.ok _ = _
  rw [List.map_const', List.length_range]

/-- C1 (amended): `generateEmbedding` (and its Ollama variant) never
propagates a provider failure: the result is ok for every provider outcome,
and on a provider error it is the random fallback vector of the provider's
dimensionality (384, resp. 768). -/
theorem generateEmbedding_never_errors (provider : Except JsError (List ℚ))
    (e : JsError) (random : ℕ → ℚ) :
    (generateEmbedding provider random).isOk = true ∧
    (generateEmbeddingOllama provider random).isOk = true ∧
    generateEmbedding (.error e) random = .ok ((List.range 384).map random) ∧
    generateEmbeddingOllama (.error e) random
      = .ok ((List.range 768).map random) := by
  refine ⟨?_, ?_, rfl, rfl⟩ <;> cases provider <;> rfl

/-! ## C4: input validation of `search` -/

/-- C4 (counterexample): `searchDocuments("", 5)` over an empty store
returns the empty result list with no error of any kind — there is no
input validation inside `searchDocuments`. -/
theorem search_empty_query_returns_ok :
    searchDocuments []
      (fun _ _ _ => .error (.errObj "COHERE_API_KEY is not configured"))
      "" 5 = .ok [] := rfl

/-- C4 (amended): `searchDocuments` itself validates nothing — any query
(including the empty one) and any limit (including 0) over an empty store
succeed with `[]`; the only empty-query rejection lives in the HTTP route,
whose `POST` replies 400 `Query is required` when the request's `query`
field is missing or empty, and no component checks the limit. -/
theorem search_performs_no_input_validation
    (rerank : String → List DocumentForRerank → ℕ →
      Except JsError (List RerankedDocument))
    (query : String) (limit : ℕ)
    (sr : Except JsError (List SearchResult)) (ar : Except JsError String) :
    searchDocuments [] rerank query limit = .ok [] ∧
    postSearchRoute (some "") sr ar = ⟨400, "Query is required"⟩ ∧
    postSearchRoute none sr ar = ⟨400, "Query is required"⟩ := by
  refine ⟨rfl, ?_, rfl⟩
  simp [postSearchRoute]

/-! ## C2: reranker-failure fallback -/

/-- C2 (counterexample): over a non-empty store, a failing reranker makes
`searchDocuments` fail with that very error — the catch block rethrows, and
no secondary reranker is consulted. -/
theorem search_propagates_reranker_error :
    searchDocuments [("cv1", sampleDoc)]
      (fun _ _ _ => .error (.errObj "Cohere rerank failed: Too Many Requests"))
      "mobile developers" 5
      = .error (.errObj "Cohere rerank failed: Too Many Requests") := rfl

/-- C2 (amended): only `rerankDocumentsWithGemini` has a built-in fallback —
when its generate call throws an `Error`, the result is exactly the outcome
of the embedding-based fallback (which may itself fail); `searchDocuments`
instead propagates any reranker error to its caller. -/
theorem reranker_error_handling (msg : String)
    (secondary : Except JsError (List RerankedDocument))
    (documents : List DocumentForRerank) (topN : ℕ)
    (store : List (String × StoredDocument)) (e : JsError)
    (query : String) (limit : ℕ)
    (hdocs : documents ≠ []) (hstore : store ≠ []) :
    rerankDocumentsWithGemini true (.error (.errObj msg)) secondary
      documents topN = secondary ∧
    searchDocuments store (fun _ _ _ => .error e) query limit = .error e := by
  constructor
  · simp [rerankDocumentsWithGemini, List.isEmpty_iff, hdocs]
  · simp [searchDocuments, getAllDocuments, List.isEmpty_iff, hstore]

/-- Witness for `reranker_error_handling` at concrete inputs. -/
theorem reranker_error_handling_witness :
    ([rerankDocA] ≠ ([] : List DocumentForRerank)) ∧
    ([("cv1", sampleDoc)] ≠ ([] : List (String × StoredDocument))) ∧
    (rerankDocumentsWithGemini true (.error (.errObj "http 429")) (.ok [])
        [rerankDocA] 5 = .ok [] ∧
      searchDocuments [("cv1", sampleDoc)] (fun _ _ _ => .error .nonError)
        "q" 5 = .error .nonError) :=
  ⟨by simp, by simp,
    reranker_error_handling "http 429" (.ok []) [rerankDocA] 5
      [("cv1", sampleDoc)] .nonError "q" 5 (by simp) (by simp)⟩

/-! ## C8: dimension mismatch in scoring -/

/-- C8 (counterexample): the `cosineSimilarity` of `document-store.ts`
produces the similarity score `0` for mismatched vector lengths instead of
failing. -/
theorem cosineSimilarityStore_mismatch_scores_zero :
    cosineSimilarityStore [(1 : ℝ)] [1, 0] = 0 := by
  simp [cosineSimilarityStore]

/-- C8 (amended): on a length mismatch, the service `cosineSimilarity`
(`cohere-service.ts` / `gemini-service.ts`) throws `Vectors must have the
same length`, while the one scoring stored chunks in `document-store.ts`
logs a warning and returns the score `0`. -/
theorem cosineSimilarity_length_mismatch (a b : List ℝ)
    (h : a.length ≠ b.length) :
    cosineSimilarityStore a b = 0 ∧
    cosineSimilarityService a b
      = .error (.errObj "Vectors must have the same length") := by
  constructor <;> simp [cosineSimilarityStore, cosineSimilarityService, h]

/-- Witness for `cosineSimilarity_length_mismatch` at concrete vectors. -/
theorem cosineSimilarity_length_mismatch_witness :
    ([(1 : ℝ)].length ≠ ([1, 0] : List ℝ).length) ∧
    (cosineSimilarityStore [(1 : ℝ)] [1, 0] = 0 ∧
      cosineSimilarityService [(1 : ℝ)] [1, 0]
        = .error (.errObj "Vectors must have the same length")) :=
  ⟨by simp, cosineSimilarity_length_mismatch _ _ (by simp)⟩

/-! ## C9: insert requires an embedding -/

/-- Finding a key in the replace-in-place branch of `Map.set`. -/
lemma find?_set_replace (store : List (String × StoredDocument))
    (k : String) (v : StoredDocument)
    (hany : store.any (fun p => decide (p.1 = k)) = true) :
    (store.map (fun p => if p.1 = k then (k, v) else p)).find?
      (fun p => decide (p.1 = k)) = some (k, v) := by
  induction store with
  | nil => simp at hany
  | cons p ps ih =>
    by_cases hp : p.1 = k
    · rw [List.map_cons, if_pos hp, List.find?_cons_of_pos _ (by simp)]
    · rw [List.map_cons, if_neg hp, List.find?_cons_of_neg _ (by simp [hp])]
      simp only [List.any_cons, Bool.or_eq_true] at hany
      exact ih (hany.resolve_left (by simp [hp]))

/-- Finding a key in the append branch of `Map.set`. -/
lemma find?_set_append (store : List (String × StoredDocument))
    (k : String) (v : StoredDocument)
    (hnone : ∀ p ∈ store, ¬ p.1 = k) :
    (store ++ [(k, v)]).find? (fun p => decide (p.1 = k)) = some (k, v) := by
  induction store with
  | nil => simp
  | cons p ps ih =>
    rw [List.cons_append,
      List.find?_cons_of_neg _ (by simp [hnone p (by simp)])]
    exact ih (fun q hq => hnone q (by simp [hq]))

/-- Looking up a key right after `Map.set(k, v)` yields `v`. -/
lemma getDocument_mapSet (store : List (String × StoredDocument))
    (k : String) (v : StoredDocument) :
    getDocument (mapSet store k v) k = some v := by
  unfold getDocument mapSet
  by_cases h : store.any (fun p => decide (p.1 = k)) = true
  · rw [if_pos h, find?_set_replace store k v h, Option.map_some']
  · rw [if_neg h, find?_set_append store k v, Option.map_some']
    intro p hp hpk
    exact h (List.any_eq_true.mpr ⟨p, hp, by simp [hpk]⟩)

/-- A chunk with no embedding, as the in-memory store accepts it. -/
def chunkNoEmbedding : StoredDocument :=
  { id := "c9", filename := "f.txt", content := "some text" }

/-- C9 (counterexample): the in-memory `storeDocument` stores a chunk whose
`embedding` is absent without any error, and the chunk is subsequently
retrievable still lacking an embedding. -/
theorem storeDocument_stores_without_embedding :
    storeDocument [] chunkNoEmbedding = [("c9", chunkNoEmbedding)] ∧
    getDocument [("c9", chunkNoEmbedding)] "c9" = some chunkNoEmbedding ∧
    chunkNoEmbedding.embedding = none := ⟨rfl, rfl, rfl⟩

/-- C9 (amended): only the Qdrant-backed `storeDocument` rejects a chunk
lacking an embedding (`Document must have an embedding to be stored`); the
in-memory `storeDocument` stores it unconditionally, and the stored chunk
can be read back with `embedding` still absent. -/
theorem storeDocument_embedding_policy
    (store : List (String × StoredDocument)) (d : StoredDocument)
    (upsert : Except JsError Unit) (h : d.embedding = none) :
    getDocument (storeDocument store d) d.id = some d ∧
    (getDocument (storeDocument store d) d.id).bind StoredDocument.embedding
      = none ∧
    storeDocumentQdrant d upsert
      = .error (.errObj "Document must have an embedding to be stored") := by
  refine ⟨getDocument_mapSet store d.id d, ?_, ?_⟩
  · show (getDocument (mapSet store d.id d) d.id).bind _ = _
    rw [getDocument_mapSet store d.id d]
    simpa using h
  · simp [storeDocumentQdrant, h]

/-- Witness for `storeDocument_embedding_policy` at a concrete chunk. -/
theorem storeDocument_embedding_policy_witness :
    chunkNoEmbedding.embedding = none ∧
    (getDocument (storeDocument [] chunkNoEmbedding) chunkNoEmbedding.id
        = some chunkNoEmbedding ∧
      (getDocument (storeDocument [] chunkNoEmbedding)
        chunkNoEmbedding.id).bind StoredDocument.embedding = none ∧
      storeDocumentQdrant chunkNoEmbedding (.ok ())
        = .error (.errObj "Document must have an embedding to be stored")) :=
  ⟨rfl, storeDocument_embedding_policy [] chunkNoEmbedding (.ok ()) rfl⟩

/-! ## C7: rerank output ordering -/

/-- C7 (counterexample): the rerankers return results in the order of the
provider's parsed response; with a response whose scores ascend, the
returned sequence is not descending by `relevance_score`. -/
theorem rerank_not_sorted_by_score :
    rerankDocumentsWithGemini true (.ok [(0, 1/10), (1, 9/10)]) (.ok [])
      [rerankDocA, rerankDocB] 5
      = .ok [⟨rerankDocA, 1/10⟩, ⟨rerankDocB, 9/10⟩] ∧
    ¬ List.Chain'
        (fun x y : RerankedDocument => x.relevance_score > y.relevance_score)
        [⟨rerankDocA, 1/10⟩, ⟨rerankDocB, 9/10⟩] := by
  refine ⟨rfl, ?_⟩
  simp only [List.chain'_cons, List.chain'_singleton, and_true]
  norm_num

/-- C7 (amended): neither provider-backed reranker sorts: the returned
sequence carries the provider-response scores positionally, in response
order (`rerankDocumentsWithGemini` truncated to `topN`, `rerankDocuments`
as-is), so the output is descending exactly when the provider's response
already is. -/
theorem rerank_order_from_provider (documents : List DocumentForRerank)
    (scores : List (ℕ × ℚ))
    (secondary : Except JsError (List RerankedDocument)) (topN : ℕ)
    (hdocs : documents ≠ []) :
    rerankDocumentsWithGemini true (.ok scores) secondary documents topN
      = .ok ((scores.take topN).map fun r =>
          ⟨documents.getD r.1 default, r.2⟩) ∧
    rerankDocuments true (.ok scores) documents topN
      = .ok (scores.map fun r => ⟨documents.getD r.1 default, r.2⟩) ∧
    (List.Chain' (fun x y : ℕ × ℚ => x.2 ≥ y.2) scores →
      List.Chain'
        (fun x y : RerankedDocument => x.relevance_score ≥ y.relevance_score)
        ((scores.take topN).map fun r => ⟨documents.getD r.1 default, r.2⟩)) := by
  refine ⟨?_, ?_, ?_⟩
  · simp [rerankDocumentsWithGemini, List.isEmpty_iff, hdocs]
  · simp [rerankDocuments, List.isEmpty_iff, hdocs]
  · intro hs
    rw [List.chain'_map]
    exact hs.take topN

/-- Witness for `rerank_order_from_provider` at concrete inputs. -/
theorem rerank_order_from_provider_witness :
    ([rerankDocA, rerankDocB] ≠ ([] : List DocumentForRerank)) ∧
    (rerankDocumentsWithGemini true (.ok [(1, 9/10), (0, 1/10)]) (.ok [])
        [rerankDocA, rerankDocB] 5
        = .ok (([((1 : ℕ), (9 : ℚ)/10), (0, 1/10)].take 5).map fun r =>
            ⟨[rerankDocA, rerankDocB].getD r.1 default, r.2⟩) ∧
      rerankDocuments true (.ok [(1, 9/10), (0, 1/10)])
        [rerankDocA, rerankDocB] 5
        = .ok ([((1 : ℕ), (9 : ℚ)/10), (0, 1/10)].map fun r =>
            ⟨[rerankDocA, rerankDocB].getD r.1 default, r.2⟩) ∧
      (List.Chain' (fun x y : ℕ × ℚ => x.2 ≥ y.2)
          [((1 : ℕ), (9 : ℚ)/10), (0, 1/10)] →
        List.Chain'
          (fun x y : RerankedDocument =>
            x.relevance_score ≥ y.relevance_score)
          (([((1 : ℕ), (9 : ℚ)/10), (0, 1/10)].take 5).map fun r =>
            ⟨[rerankDocA, rerankDocB].getD r.1 default, r.2⟩))) :=
  ⟨by simp,
    rerank_order_from_provider [rerankDocA, rerankDocB]
      [(1, 9/10), (0, 1/10)] (.ok []) 5 (by simp)⟩

/-! ## C10: delete by parent id -/

/-- Under unique keys, a key appears in the collected delete list exactly
when its entry matches the delete predicate. -/
lemma mem_toDelete_iff (store : List (String × StoredDocument))
    (parentId : String) (hnodup : (store.map Prod.fst).Nodup)
    (p : String × StoredDocument) (hp : p ∈ store) :
    p.1 ∈ (store.filter (fun q => decide (matchesParent parentId q))).map
      (fun q => q.1) ↔ matchesParent parentId p := by
  constructor
  · intro hmem
    obtain ⟨q, hq, hqp⟩ := List.mem_map.mp hmem
    obtain ⟨hq_mem, hq_match⟩ := List.mem_filter.mp hq
    have : q = p :=
      List.inj_on_of_nodup_map hnodup hq_mem hp hqp
    exact of_decide_eq_true (this ▸ hq_match)
  · intro hmatch
    exact List.mem_map.mpr
      ⟨p, List.mem_filter.mpr ⟨hp, decide_eq_true hmatch⟩, rfl⟩

/-- C10: `deleteDocumentsByParentId(parentId)` removes exactly the stored
entries whose `parentDocumentId` equals `parentId` or whose own `id` equals
`parentId`, returns how many it removed, and leaves every other entry in
place — the surviving store is precisely the original filtered to the
non-matching entries, in order (assuming the JS-`Map` invariant of unique
keys). -/
theorem deleteDocumentsByParentId_spec
    (store : List (String × StoredDocument)) (parentId : String)
    (hnodup : (store.map Prod.fst).Nodup) :
    (deleteDocumentsByParentId store parentId).2
      = store.filter (fun p => ¬ matchesParent parentId p) ∧
    (deleteDocumentsByParentId store parentId).1
      = (store.filter (fun p => matchesParent parentId p)).length ∧
    ∀ p, p ∈ (deleteDocumentsByParentId store parentId).2
      ↔ p ∈ store ∧ ¬ matchesParent parentId p := by
  have hfilter : (deleteDocumentsByParentId store parentId).2
      = store.filter (fun p => ¬ matchesParent parentId p) := by
    unfold deleteDocumentsByParentId
    refine List.filter_congr ?_
    intro p hp
    have := mem_toDelete_iff store parentId hnodup p hp
    by_cases hm : matchesParent parentId p
    · simp [this, hm]
    · simp [this, hm]
  refine ⟨hfilter, ?_, ?_⟩
  · unfold deleteDocumentsByParentId
    simp
  · intro p
    rw [hfilter]
    simp [List.mem_filter]

/-- Three concrete chunks: two belonging to parent `doc1`, one (also its
own parent) unrelated. -/
def chunkA : StoredDocument :=
  { id := "doc1_0", filename := "a.txt", content := "alpha",
    parentDocumentId := some "doc1" }

/-- The second chunk of parent `doc1`. -/
def chunkB : StoredDocument :=
  { id := "doc1_1", filename := "a.txt", content := "beta",
    parentDocumentId := some "doc1" }

/-- A chunk of an unrelated parent. -/
def chunkC : StoredDocument :=
  { id := "doc2_0", filename := "b.txt", content := "gamma",
    parentDocumentId := some "doc2" }

/-- Witness for `deleteDocumentsByParentId_spec` on a concrete store. -/
theorem deleteDocumentsByParentId_spec_witness :
    (([("doc1_0", chunkA), ("doc1_1", chunkB), ("doc2_0", chunkC)].map
        Prod.fst).Nodup) ∧
    ((deleteDocumentsByParentId
        [("doc1_0", chunkA), ("doc1_1", chunkB), ("doc2_0", chunkC)]
        "doc1").2
      = [("doc1_0", chunkA), ("doc1_1", chunkB), ("doc2_0", chunkC)].filter
          (fun p => ¬ matchesParent "doc1" p) ∧
      (deleteDocumentsByParentId
        [("doc1_0", chunkA), ("doc1_1", chunkB), ("doc2_0", chunkC)]
        "doc1").1
      = ([("doc1_0", chunkA), ("doc1_1", chunkB), ("doc2_0", chunkC)].filter
          (fun p => matchesParent "doc1" p)).length ∧
      ∀ p, p ∈ (deleteDocumentsByParentId
          [("doc1_0", chunkA), ("doc1_1", chunkB), ("doc2_0", chunkC)]
          "doc1").2
        ↔ p ∈ [("doc1_0", chunkA), ("doc1_1", chunkB), ("doc2_0", chunkC)]
            ∧ ¬ matchesParent "doc1" p) :=
  ⟨by simp, deleteDocumentsByParentId_spec
    [("doc1_0", chunkA), ("doc1_1", chunkB), ("doc2_0", chunkC)] "doc1"
    (by simp)⟩

/-! ## C3: relevance-threshold filtering -/

/-- The reply `searchDocuments` produces for `sampleDoc` reranked at
relevance 1/2. -/
def sampleSearchReply : SearchResult :=
  { id := "cv1", title := "cv.txt", content := "iOS Engineer, Swift, UIKit",
    score := 1/2 }

/-- C3 (amended, positive half): every result in a successful
`searchDocuments` reply scores at least the configured threshold 0.02 —
the Cohere pipeline filters `relevance_score >= RELEVANCE_THRESHOLD`
before returning. -/
theorem searchDocuments_filters_below_threshold
    (store : List (String × StoredDocument))
    (rerank : String → List DocumentForRerank → ℕ →
      Except JsError (List RerankedDocument))
    (query : String) (limit : ℕ) (results : List SearchResult)
    (h : searchDocuments store rerank query limit = .ok results) :
    ∀ r ∈ results, RELEVANCE_THRESHOLD ≤ r.score := by
  intro r hr
  unfold searchDocuments at h
  by_cases hempty : (getAllDocuments store).isEmpty
  · simp only [hempty, if_true, Except.ok.injEq] at h
    subst h
    simp at hr
  · simp only [hempty, Bool.false_eq_true, if_false] at h
    split at h
    · exact absurd h (by simp)
    · simp only [Except.ok.injEq] at h
      subst h
      obtain ⟨d, hd, rfl⟩ := List.mem_map.mp hr
      have := (List.mem_filter.mp hd).2
      exact of_decide_eq_true this

/-- Witness for `searchDocuments_filters_below_threshold` at concrete
inputs. -/
theorem searchDocuments_filters_below_threshold_witness :
    (searchDocuments [("cv1", sampleDoc)]
        (fun _ _ _ => .ok [⟨toDocumentForRerank sampleDoc, 1/2⟩]) "ios" 5
      = .ok [sampleSearchReply]) ∧
    (∀ r ∈ [sampleSearchReply], RELEVANCE_THRESHOLD ≤ r.score) :=
  have h : searchDocuments [("cv1", sampleDoc)]
      (fun _ _ _ => .ok [⟨toDocumentForRerank sampleDoc, 1/2⟩]) "ios" 5
      = .ok [sampleSearchReply] := by
    unfold searchDocuments
    norm_num [getAllDocuments, sampleDoc, toDocumentForRerank, toSearchResult,
      RELEVANCE_THRESHOLD, sampleSearchReply]
    exact fun hcontra => absurd hcontra (by decide)
  ⟨h, searchDocuments_filters_below_threshold _ _ _ _ _ h⟩

/-- C3 (counterexample): `searchDocumentsWithGemini` applies no threshold
filter: with the stage-2 reranker scoring the sole candidate at 0.01, the
result below the 0.02 threshold is returned to the caller. -/
theorem searchWithGemini_returns_below_threshold :
    searchDocumentsWithGemini [("cv1", sampleEmbeddedDoc)] (.ok [1])
      (fun _ => .ok [⟨toDocumentForRerank sampleEmbeddedDoc, 1/100⟩]) "q" 5
      = .ok [{ id := "cv1", title := "cv.txt",
               content := "iOS Engineer, Swift, UIKit", chunkIndex := none,
               score := 1/100 }] ∧
    ((1 : ℚ)/100 < RELEVANCE_THRESHOLD) := by
  constructor
  · unfold searchDocumentsWithGemini
    simp only [getAllDocuments, List.map_cons, List.map_nil,
      List.isEmpty_cons, sampleEmbeddedDoc, List.filterMap_cons,
      List.filterMap_nil, Option.map_some']
    rw [List.mapM_cons, List.mapM_nil]
    simp only [cosineSimilarityService, List.length_cons, List.length_nil,
      ne_eq, sumSquares, dotProduct, List.map_cons, List.map_nil,
      List.sum_cons, List.sum_nil, List.zipWith_cons_cons,
      List.zipWith_nil_right]
    norm_num [Real.sqrt_one]
    simp only [Functor.map, Except.map]
    norm_num [sortByScoreDesc, insertCandidateDesc, toDocumentForRerank,
      toSearchResult]
    exact fun h => absurd h (by decide)
  · norm_num [RELEVANCE_THRESHOLD]

/-! ## C5: chunking with a non-positive window size -/

/-- Both whitespace scanners always return at least one token. -/
lemma splitWSAux_skipWS_ne_nil :
    ∀ (n : ℕ) (cs : List Char), cs.length ≤ n →
      (∀ acc, splitWSAux cs acc ≠ []) ∧ skipWS cs ≠ [] := by
  intro n
  induction n with
  | zero =>
    intro cs hcs
    obtain rfl : cs = [] := List.length_eq_zero.mp (Nat.le_zero.mp hcs)
    exact ⟨fun acc => by simp [splitWSAux], by simp [skipWS]⟩
  | succ n ih =>
    intro cs hcs
    cases cs with
    | nil => exact ⟨fun acc => by simp [splitWSAux], by simp [skipWS]⟩
    | cons c rest =>
      have hrest : rest.length ≤ n := by
        simpa using hcs
      constructor
      · intro acc
        by_cases hw : c.isWhitespace
        · simp [splitWSAux, hw]
        · simpa [splitWSAux, hw] using (ih rest hrest).1 (c :: acc)
      · by_cases hw : c.isWhitespace
        · simpa [skipWS, hw] using (ih rest hrest).2
        · simpa [skipWS, hw] using (ih rest hrest).1 [c]

/-- `split(/\s+/)` never returns an empty array. -/
lemma splitWhitespace_ne_nil (s : String) : splitWhitespace s ≠ [] := by
  unfold splitWhitespace
  intro h
  exact (splitWSAux_skipWS_ne_nil s.toList.length s.toList le_rfl).1 []
    (List.map_eq_nil_iff.mp h)

/-- With a non-positive step the chunking loop never reaches the exit
condition: the index never grows while the token list is non-empty. -/
lemma chunkLoopFuel_nonpos_none (words : List String) (chunkSize : Int)
    (hcs : chunkSize ≤ 0) (hw : words ≠ []) :
    ∀ (fuel : ℕ) (i : Int), i ≤ 0 → ∀ acc,
      chunkLoopFuel words chunkSize fuel i acc = none := by
  intro fuel
  induction fuel with
  | zero => intro i _ acc; rfl
  | succ n ih =>
    intro i hi acc
    have hlen : (0 : Int) < words.length := by
      exact_mod_cast List.length_pos.mpr hw
    rw [chunkLoopFuel, if_pos (lt_of_le_of_lt hi hlen)]
    exact ih (i + chunkSize) (by omega) _

/-- C5: for every document and every `windowSize <= 0`,
`splitDocumentIntoChunks` neither throws nor returns: the loop
`for (i = 0; i < words.length; i += chunkSize)` makes no forward progress,
so no fuel bound suffices — the call diverges instead of failing with a
validation error. -/
theorem splitDocumentIntoChunks_nonpositive_window_diverges
    (content : String) (chunkSize : Int) (h : chunkSize ≤ 0) :
    splitDocumentIntoChunks content chunkSize = none ∧
    ∀ fuel, chunkLoopFuel (splitWhitespace content) chunkSize fuel 0 [] = none := by
  have := chunkLoopFuel_nonpos_none (splitWhitespace content) chunkSize h
    (splitWhitespace_ne_nil content)
  exact ⟨this _ 0 le_rfl [], fun fuel => this fuel 0 le_rfl []⟩

/-- Witness for `splitDocumentIntoChunks_nonpositive_window_diverges` at a
concrete document and window size 0. -/
theorem splitDocumentIntoChunks_nonpositive_window_diverges_witness :
    ((0 : Int) ≤ 0) ∧
    (splitDocumentIntoChunks "hello world" 0 = none ∧
      ∀ fuel, chunkLoopFuel (splitWhitespace "hello world") 0 fuel 0 [] = none) :=
  ⟨le_rfl,
    splitDocumentIntoChunks_nonpositive_window_diverges "hello world" 0 le_rfl⟩

/-! ## C6: the chunk invariant -/

/-- C6 (counterexample): for the non-empty document `" a"` (one
whitespace-delimited token) and window size 1, the sole produced chunk has
`chunkIndex = 1`, not the contiguous-from-0 sequence the claim requires:
the empty window at index 0 is discarded without renumbering, because
`chunkIndex` is computed as `Math.floor(i / chunkSize)` from the token
offset. -/
theorem chunkIndex_not_contiguous_with_leading_whitespace :
    splitDocumentIntoChunks " a" 1 = some [{ content := "a", chunkIndex := 1 }] ∧
    [({ content := "a", chunkIndex := 1 } : ChunkDraft)].map ChunkDraft.chunkIndex
      ≠ (List.range 1).map (fun j => (j : Int)) := by
  constructor
  · have hsplit : splitWhitespace " a" = ["", "a"] := by
      simp [splitWhitespace, splitWSAux, skipWS]
    unfold splitDocumentIntoChunks
    rw [hsplit]
    rfl
  · decide

/-- Both whitespace scanners return only tokens free of whitespace
characters (provided the accumulator is). -/
lemma splitWSAux_skipWS_wsfree :
    ∀ (n : ℕ) (cs : List Char), cs.length ≤ n →
      (∀ acc, (∀ c ∈ acc, ¬ c.isWhitespace) →
        ∀ t ∈ splitWSAux cs acc, ∀ c ∈ t, ¬ c.isWhitespace) ∧
      (∀ t ∈ skipWS cs, ∀ c ∈ t, ¬ c.isWhitespace) := by
  intro n
  induction n with
  | zero =>
    intro cs hcs
    obtain rfl : cs = [] := List.length_eq_zero.mp (Nat.le_zero.mp hcs)
    constructor
    · intro acc hacc t ht c hc
      simp only [splitWSAux, List.mem_singleton] at ht
      exact hacc c (by simpa [ht] using hc)
    · intro t ht c hc
      simp only [skipWS, List.mem_singleton] at ht
      simp [ht] at hc
  | succ n ih =>
    intro cs hcs
    cases cs with
    | nil =>
      constructor
      · intro acc hacc t ht c hc
        simp only [splitWSAux, List.mem_singleton] at ht
        exact hacc c (by simpa [ht] using hc)
      · intro t ht c hc
        simp only [skipWS, List.mem_singleton] at ht
        simp [ht] at hc
    | cons a rest =>
      have hrest : rest.length ≤ n := by simpa using hcs
      constructor
      · intro acc hacc t ht
        by_cases hw : a.isWhitespace
        · simp only [splitWSAux, hw, if_true] at ht
          rcases List.mem_cons.mp ht with rfl | ht
          · intro c hc; exact hacc c (by simpa using hc)
          · exact (ih rest hrest).2 t ht
        · simp only [splitWSAux, hw, if_false] at ht
          refine (ih rest hrest).1 (a :: acc) ?_ t ht
          intro c hc
          rcases List.mem_cons.mp hc with rfl | hc
          · exact hw
          · exact hacc c hc
      · intro t ht
        by_cases hw : a.isWhitespace
        · simp only [skipWS, hw, if_true] at ht
          exact (ih rest hrest).2 t ht
        · simp only [skipWS, hw, if_false] at ht
          refine (ih rest hrest).1 [a] ?_ t ht
          intro c hc
          rw [List.mem_singleton.mp hc]
          exact hw

/-- Every token the scanners produce, except possibly the last, is
non-empty (provided the accumulator is non-empty). -/
lemma splitWSAux_skipWS_dropLast_ne_nil :
    ∀ (n : ℕ) (cs : List Char), cs.length ≤ n →
      (∀ acc, acc ≠ [] → ∀ t ∈ (splitWSAux cs acc).dropLast, t ≠ []) ∧
      (∀ t ∈ (skipWS cs).dropLast, t ≠ []) := by
  intro n
  induction n with
  | zero =>
    intro cs hcs
    obtain rfl : cs = [] := List.length_eq_zero.mp (Nat.le_zero.mp hcs)
    constructor
    · intro acc _ t ht; simp [splitWSAux] at ht
    · intro t ht; simp [skipWS] at ht
  | succ n ih =>
    intro cs hcs
    cases cs with
    | nil =>
      constructor
      · intro acc _ t ht; simp [splitWSAux] at ht
      · intro t ht; simp [skipWS] at ht
    | cons a rest =>
      have hrest : rest.length ≤ n := by simpa using hcs
      constructor
      · intro acc hacc t ht
        by_cases hw : a.isWhitespace
        · simp only [splitWSAux, hw, if_true] at ht
          obtain ⟨u, us, hus⟩ :=
            List.exists_cons_of_ne_nil
              ((splitWSAux_skipWS_ne_nil rest.length rest le_rfl).2)
          rw [hus, List.dropLast_cons₂, List.mem_cons] at ht
          rcases ht with rfl | ht
          · simpa using hacc
          · exact (ih rest hrest).2 t (by rw [hus]; exact ht)
        · simp only [splitWSAux, hw, if_false] at ht
          exact (ih rest hrest).1 (a :: acc) (by simp) t ht
      · intro t ht
        by_cases hw : a.isWhitespace
        · simp only [skipWS, hw, if_true] at ht
          exact (ih rest hrest).2 t ht
        · simp only [skipWS, hw, if_false] at ht
          exact (ih rest hrest).1 [a] (by simp) t ht

/-- The scanners produce at least one non-empty token when started with a
non-empty accumulator. -/
lemma splitWSAux_exists_ne_nil :
    ∀ (n : ℕ) (cs : List Char), cs.length ≤ n →
      ∀ acc, acc ≠ [] → ∃ t ∈ splitWSAux cs acc, t ≠ [] := by
  intro n
  induction n with
  | zero =>
    intro cs hcs acc hacc
    obtain rfl : cs = [] := List.length_eq_zero.mp (Nat.le_zero.mp hcs)
    exact ⟨acc.reverse, by simp [splitWSAux], by simpa using hacc⟩
  | succ n ih =>
    intro cs hcs acc hacc
    cases cs with
    | nil => exact ⟨acc.reverse, by simp [splitWSAux], by simpa using hacc⟩
    | cons a rest =>
      have hrest : rest.length ≤ n := by simpa using hcs
      by_cases hw : a.isWhitespace
      · exact ⟨acc.reverse, by simp [splitWSAux, hw], by simpa using hacc⟩
      · obtain ⟨t, ht, htne⟩ := ih rest hrest (a :: acc) (by simp)
        exact ⟨t, by simp [splitWSAux, hw, ht], htne⟩

/-- A string's character list is empty exactly when the string is empty. -/
lemma toList_eq_nil_iff (s : String) : s.toList = [] ↔ s = "" := by
  constructor
  · intro h
    cases s with
    | mk data => simp [String.toList] at h; simp [h]
  · intro h; simp [h]

/-- JS `trim()` leaves nothing exactly when every character is
whitespace. -/
lemma trimChars_eq_nil_iff (cs : List Char) :
    trimChars cs = [] ↔ ∀ c ∈ cs, c.isWhitespace := by
  unfold trimChars
  rw [List.reverse_eq_nil_iff, List.dropWhile_eq_nil_iff]
  constructor
  · intro h c hc
    have hsplit :
        cs.takeWhile (fun c => c.isWhitespace)
          ++ cs.dropWhile (fun c => c.isWhitespace) = cs :=
      List.takeWhile_append_dropWhile (p := fun c => c.isWhitespace) (l := cs)
    rw [← hsplit] at hc
    rcases List.mem_append.mp hc with h1 | h2
    · exact List.mem_takeWhile_imp h1
    · exact h c (List.mem_reverse.mpr h2)
  · intro h c hc
    exact h c
      ((List.dropWhile_sublist (fun c => c.isWhitespace)).subset
        (List.mem_reverse.mp hc))

/-- The characters of a space-join of at least two tokens. -/
lemma joinSpace_cons_cons_toList (t u : String) (us : List String) :
    (joinSpace (t :: u :: us)).toList
      = t.toList ++ ' ' :: (joinSpace (u :: us)).toList := by
  show (t ++ " " ++ joinSpace (u :: us)).data = _
  simp [String.data_append, String.toList]

/-- Characters of a space-join: some character of the join is
non-whitespace exactly when some token has a non-whitespace character. -/
lemma joinSpace_has_nonws_iff (window : List String) :
    (∃ c ∈ (joinSpace window).toList, ¬ c.isWhitespace)
      ↔ ∃ t ∈ window, ∃ c ∈ t.toList, ¬ c.isWhitespace := by
  induction window with
  | nil => simp [joinSpace]
  | cons t ts ih =>
    cases ts with
    | nil => simp [joinSpace]
    | cons u us =>
      rw [joinSpace_cons_cons_toList]
      constructor
      · rintro ⟨c, hc, hcw⟩
        rcases List.mem_append.mp hc with hc | hc
        · exact ⟨t, by simp, c, hc, hcw⟩
        · rcases List.mem_cons.mp hc with rfl | hc
          · exact absurd (by decide : (' ').isWhitespace = true) hcw
          · obtain ⟨t', ht', w⟩ := ih.mp ⟨c, hc, hcw⟩
            exact ⟨t', by simp [ht'], w⟩
      · rintro ⟨t', ht', c, hc, hcw⟩
        rcases List.mem_cons.mp ht' with rfl | ht'
        · exact ⟨c, List.mem_append.mpr (Or.inl hc), hcw⟩
        · obtain ⟨c', hc', hcw'⟩ := ih.mpr ⟨t', ht', c, hc, hcw⟩
          exact ⟨c',
            List.mem_append.mpr (Or.inr (List.mem_cons.mpr (Or.inr hc'))),
            hcw'⟩

/-- The push condition of the chunking loop, for whitespace-free tokens:
a window survives trimming exactly when it contains a non-empty token. -/
lemma push_condition_iff (window : List String)
    (hfree : ∀ t ∈ window, ∀ c ∈ t.toList, ¬ c.isWhitespace) :
    (0 < (trimChars (joinSpace window).toList).length)
      ↔ ∃ t ∈ window, t ≠ "" := by
  rw [List.length_pos]
  constructor
  · intro h
    have hex : ∃ c ∈ (joinSpace window).toList, ¬ c.isWhitespace := by
      by_contra hall
      push_neg at hall
      exact h ((trimChars_eq_nil_iff _).mpr (by simpa using hall))
    obtain ⟨t, ht, c, hc, _⟩ := (joinSpace_has_nonws_iff window).mp hex
    refine ⟨t, ht, fun hteq => ?_⟩
    rw [hteq] at hc
    exact absurd hc (by simp)
  · rintro ⟨t, ht, htne⟩ htrim
    have hall := (trimChars_eq_nil_iff _).mp htrim
    obtain ⟨c, cs, hcs⟩ := List.exists_cons_of_ne_nil
      (fun hnil => htne ((toList_eq_nil_iff t).mp hnil))
    obtain ⟨c', hc', hcw'⟩ := (joinSpace_has_nonws_iff window).mpr
      ⟨t, ht, c, by rw [show t.toList = c :: cs from hcs]; exact List.mem_cons_self c cs,
        hfree t ht c (by rw [show t.toList = c :: cs from hcs]; exact List.mem_cons_self c cs)⟩
    exact hcw' (hall c' hc')

/-- All-but-last non-emptiness survives dropping a prefix. -/
lemma forall_dropLast_drop {ws : List String}
    (h : ∀ t ∈ ws.dropLast, t ≠ "") (n : ℕ) :
    ∀ t ∈ (ws.drop n).dropLast, t ≠ "" := by
  intro t ht
  have key : (ws.drop n).dropLast = (ws.dropLast).drop n := by
    rw [List.dropLast_eq_take, List.dropLast_eq_take, List.drop_take,
      List.length_drop]
    congr 1
    omega
  rw [key] at ht
  exact h t (List.mem_of_mem_drop ht)

/-- The number of non-empty tokens (the claim's token count `L`): with at
most the final token empty, tokens split as a non-empty prefix followed by
at most one empty token. -/
def nonemptyCount (ws : List String) : ℕ :=
  (ws.filter (fun t => t ≠ "")).length

/-- Dropping `n` tokens removes `n` from the non-empty count (valid when
only the final token may be empty). -/
lemma nonemptyCount_drop (ws : List String)
    (h : ∀ t ∈ ws.dropLast, t ≠ "") (n : ℕ) :
    nonemptyCount (ws.drop n) = nonemptyCount ws - n := by
  induction n generalizing ws with
  | zero => simp
  | succ n ih =>
    cases ws with
    | nil => simp [nonemptyCount]
    | cons w ws' =>
      have h' : ∀ t ∈ ws'.dropLast, t ≠ "" := by
        intro t ht
        cases ws' with
        | nil => simp at ht
        | cons a as =>
          exact h t (by rw [List.dropLast_cons₂]; exact List.mem_cons_of_mem _ ht)
      rw [List.drop_succ_cons, ih ws' h']
      by_cases hw : w = ""
      · cases ws' with
        | nil => simp [nonemptyCount, hw]
        | cons a as =>
          exact absurd
            (h w (by rw [List.dropLast_cons₂]; exact List.mem_cons_self _ _))
            (not_not.mpr hw)
      · have : nonemptyCount (w :: ws') = nonemptyCount ws' + 1 := by
          simp [nonemptyCount, List.filter_cons, hw]
        rw [this]
        omega

/-- The window sequence over a token list with only the final token
possibly empty and no whitespace inside tokens: the chunk indices are the
contiguous range `k, k+1, ...` of length `ceil(L/(W+1))`, and every chunk
has non-empty content. -/
lemma chunkWindows_spec (W : ℕ) :
    ∀ (n : ℕ) (ws : List String), ws.length ≤ n →
      (∀ t ∈ ws.dropLast, t ≠ "") →
      (∀ t ∈ ws, ∀ c ∈ t.toList, ¬ c.isWhitespace) →
      ∀ k,
        (chunkWindows (W+1) ws k).map ChunkDraft.chunkIndex
          = (List.range ((nonemptyCount ws + W) / (W+1))).map
              (fun j => ((k + j : ℕ) : Int)) ∧
        ∀ ch ∈ chunkWindows (W+1) ws k, ch.content ≠ "" := by
  intro n
  induction n with
  | zero =>
    intro ws hlen _ _ k
    obtain rfl : ws = [] := List.length_eq_zero.mp (Nat.le_zero.mp hlen)
    refine ⟨?_, by simp [chunkWindows]⟩
    simp [chunkWindows, nonemptyCount, Nat.div_eq_of_lt (by omega : W < W + 1)]
  | succ n ih =>
    intro ws hlen hdrop hfree k
    cases ws with
    | nil =>
      refine ⟨?_, by simp [chunkWindows]⟩
      simp [chunkWindows, nonemptyCount,
        Nat.div_eq_of_lt (by omega : W < W + 1)]
    | cons w ws' =>
      by_cases hw : w = ""
      · cases ws' with
        | cons a as =>
          exact absurd
            (hdrop w (by rw [List.dropLast_cons₂]; exact List.mem_cons_self _ _))
            (not_not.mpr hw)
        | nil =>
          subst hw
          have hnil : chunkWindows (W+1) [""] k = [] := by
            simp [chunkWindows, joinSpace, trimChars]
          refine ⟨?_, by simp [hnil]⟩
          rw [hnil]
          have hcount : nonemptyCount [""] = 0 := by simp [nonemptyCount]
          simp [hcount, Nat.div_eq_of_lt (by omega : W < W + 1)]
      · have hwin_free :
            ∀ t ∈ w :: ws'.take W, ∀ c ∈ t.toList, ¬ c.isWhitespace := by
          intro t ht
          rcases List.mem_cons.mp ht with rfl | ht
          · exact hfree t (List.mem_cons_self _ _)
          · exact hfree t
              (List.mem_cons_of_mem _ (List.mem_of_mem_take ht))
        have hcond :
            0 < (trimChars (joinSpace (w :: ws'.take W)).toList).length :=
          (push_condition_iff _ hwin_free).mpr ⟨w, List.mem_cons_self _ _, hw⟩
        have hcontent : joinSpace (w :: ws'.take W) ≠ "" := by
          intro h0
          rw [h0] at hcond
          simp [trimChars] at hcond
        have heq : chunkWindows (W+1) (w :: ws') k
            = { content := joinSpace (w :: ws'.take W),
                chunkIndex := (k : Int) }
              :: chunkWindows (W+1) (ws'.drop W) (k+1) := by
          simp only [chunkWindows, if_pos hcond, List.singleton_append]
        have hdrop' : ∀ t ∈ (ws'.drop W).dropLast, t ≠ "" := by
          have h1 := forall_dropLast_drop hdrop (W+1)
          simpa using h1
        have hfree' :
            ∀ t ∈ ws'.drop W, ∀ c ∈ t.toList, ¬ c.isWhitespace := by
          intro t ht
          exact hfree t (List.mem_cons_of_mem _ (List.mem_of_mem_drop ht))
        have hlen' : (ws'.drop W).length ≤ n := by
          rw [List.length_drop]
          simp only [List.length_cons] at hlen
          omega
        obtain ⟨ihmap, ihne⟩ := ih (ws'.drop W) hlen' hdrop' hfree' (k+1)
        have hL : nonemptyCount (ws'.drop W)
            = nonemptyCount (w :: ws') - (W+1) := by
          have h2 := nonemptyCount_drop (w :: ws') hdrop (W+1)
          simpa using h2
        have hL1 : 1 ≤ nonemptyCount (w :: ws') := by
          simp [nonemptyCount, List.filter_cons, hw]
        have hceil : (nonemptyCount (w :: ws') + W) / (W+1)
            = (nonemptyCount (ws'.drop W) + W) / (W+1) + 1 := by
          rw [hL]
          by_cases hLW : nonemptyCount (w :: ws') ≤ W + 1
          · have h1 : (nonemptyCount (w :: ws') + W) / (W+1) = 1 :=
              Nat.div_eq_of_lt_le (by omega) (by omega)
            have h2 : (nonemptyCount (w :: ws') - (W+1) + W) / (W+1) = 0 :=
              Nat.div_eq_of_lt (by omega)
            omega
          · have h3 : nonemptyCount (w :: ws') + W
                = (nonemptyCount (w :: ws') - (W+1) + W) + (W+1) := by omega
            rw [h3, Nat.add_div_right _ (by omega)]
        constructor
        · rw [heq, List.map_cons, ihmap, hceil, List.range_succ_eq_map,
            List.map_cons, List.map_map]
          refine congrArg₂ _ (by simp) ?_
          refine List.map_congr_left ?_
          intro j _
          simp only [Function.comp_apply]
          congr 1
          omega
        · rw [heq]
          intro ch hch
          rcases List.mem_cons.mp hch with rfl | hch
          · exact hcontent
          · exact ihne ch hch

/-- `slice(i, i + c)` at non-negative natural indices is drop-then-take. -/
lemma jsSlice_nat {α : Type} (l : List α) (i c : ℕ) :
    jsSlice l (i : Int) ((i : Int) + (c : Int)) = (l.drop i).take c := by
  unfold jsSlice
  dsimp only
  rw [if_neg (by omega), if_neg (by omega)]
  have hs : (min (i : Int) (l.length : Int)).toNat = min i l.length := by
    rw [← Nat.cast_min]; exact Int.toNat_ofNat _
  have he : (min ((i : Int) + (c : Int)) (l.length : Int)).toNat
      = min (i + c) l.length := by
    rw [← Nat.cast_add, ← Nat.cast_min]; exact Int.toNat_ofNat _
  rw [hs, he]
  have htake : l.take (min (i + c) l.length) = l.take (i + c) := by
    rw [List.take_eq_take]; omega
  rw [htake]
  by_cases hi : i ≤ l.length
  · rw [min_eq_left hi, List.drop_take]
    congr 1
    omega
  · rw [min_eq_right (by omega), List.take_of_length_le (by omega)]
    rw [List.drop_of_length_le le_rfl, List.drop_of_length_le (by omega)]
    simp

/-- The fueled index loop of `splitDocumentIntoChunks`, started at window
boundary `k*(W+1)` with enough fuel, produces exactly the window sequence
`chunkWindows` of the remaining tokens. -/
lemma chunkLoopFuel_eq_chunkWindows (words : List String) (W : ℕ) :
    ∀ (fuel k : ℕ) (acc : List ChunkDraft),
      words.length + 1 ≤ fuel + k * (W+1) → 1 ≤ fuel →
      chunkLoopFuel words (((W+1 : ℕ)) : Int) fuel (((k * (W+1) : ℕ)) : Int) acc
        = some (acc ++ chunkWindows (W+1) (words.drop (k * (W+1))) k) := by
  intro fuel
  induction fuel with
  | zero => intro k acc _ h1; exact absurd h1 (by omega)
  | succ f ihf =>
    intro k acc hfuel _
    by_cases hlt : k * (W+1) < words.length
    · have h1f : 1 ≤ f := by omega
      have hne : words.drop (k * (W+1)) ≠ [] := by
        rw [Ne, List.drop_eq_nil_iff]
        omega
      obtain ⟨w, ws', hws⟩ := List.exists_cons_of_ne_nil hne
      have hslice : jsSlice words (((k * (W+1) : ℕ)) : Int)
            ((((k * (W+1) : ℕ)) : Int) + (((W+1 : ℕ)) : Int))
          = w :: ws'.take W := by
        rw [jsSlice_nat, hws, List.take_succ_cons]
      have hidx : Int.fdiv (((k * (W+1) : ℕ)) : Int) (((W+1 : ℕ)) : Int)
          = (k : Int) := by
        rw [← Int.ofNat_fdiv, Nat.mul_div_cancel k (by omega)]
      have hadv : (((k * (W+1) : ℕ)) : Int) + (((W+1 : ℕ)) : Int)
          = ((((k+1) * (W+1) : ℕ)) : Int) := by
        push_cast; ring
      have hrest : ws'.drop W = words.drop ((k+1) * (W+1)) := by
        have h2 : (w :: ws').drop (W+1) = ws'.drop W := by
          simp [List.drop_succ_cons]
        rw [← h2, ← hws, List.drop_drop]
        congr 1
        ring
      rw [chunkLoopFuel, if_pos (by exact_mod_cast hlt), hslice, hidx]
      have hrec := ihf (k+1)
        (if 0 < (trimChars (joinSpace (w :: ws'.take W)).toList).length then
          acc ++ [{ content := joinSpace (w :: ws'.take W),
                    chunkIndex := (k : Int) }]
        else acc)
        (by omega) h1f
      rw [hadv, hrec, hws]
      simp only [chunkWindows, hrest]
      by_cases hcond :
          0 < (trimChars (joinSpace (w :: ws'.take W)).toList).length
      · rw [if_pos hcond, if_pos hcond]
        simp [List.append_assoc]
      · rw [if_neg hcond, if_neg hcond]
        simp
    · have hge : words.length ≤ k * (W+1) := not_lt.mp hlt
      rw [chunkLoopFuel, if_neg (by exact_mod_cast not_lt.mpr hge)]
      rw [List.drop_eq_nil_of_le hge]
      simp [chunkWindows]

/-- A string built from a non-empty character list is non-empty. -/
lemma mk_ne_empty_of_ne_nil {u : List Char} (hu : u ≠ []) :
    String.mk u ≠ "" := by
  intro h
  exact hu (by simpa using congrArg String.data h)

/-- Tokens of `split(/\s+/)` contain no whitespace characters. -/
lemma splitWhitespace_wsfree (content : String) :
    ∀ t ∈ splitWhitespace content, ∀ c ∈ t.toList, ¬ c.isWhitespace := by
  intro t ht c hc
  unfold splitWhitespace at ht
  obtain ⟨u, hu, rfl⟩ := List.mem_map.mp ht
  exact (splitWSAux_skipWS_wsfree content.toList.length content.toList
    le_rfl).1 [] (by simp) u hu c hc

/-- When the content does not start with whitespace, every token of
`split(/\s+/)` except possibly the last is non-empty. -/
lemma splitWhitespace_dropLast_ne_nil (content : String)
    (h1 : content.toList ≠ []) (h2 : ¬ content.toList.headI.isWhitespace) :
    ∀ t ∈ (splitWhitespace content).dropLast, t ≠ "" := by
  intro t ht
  obtain ⟨c, rest, hcr⟩ := List.exists_cons_of_ne_nil h1
  have hcw : ¬ c.isWhitespace := by
    rw [hcr] at h2
    simpa using h2
  unfold splitWhitespace at ht
  rw [← List.map_dropLast, hcr] at ht
  obtain ⟨u, hu, rfl⟩ := List.mem_map.mp ht
  have hu' : u ∈ (splitWSAux rest [c]).dropLast := by
    have heq : splitWSAux (c :: rest) [] = splitWSAux rest [c] := by
      simp [splitWSAux, hcw]
    rw [heq] at hu
    exact hu
  exact mk_ne_empty_of_ne_nil
    ((splitWSAux_skipWS_dropLast_ne_nil rest.length rest le_rfl).1 [c]
      (by simp) u hu')

/-- When the content does not start with whitespace, at least one token is
non-empty. -/
lemma splitWhitespace_count_pos (content : String)
    (h1 : content.toList ≠ []) (h2 : ¬ content.toList.headI.isWhitespace) :
    1 ≤ nonemptyCount (splitWhitespace content) := by
  obtain ⟨c, rest, hcr⟩ := List.exists_cons_of_ne_nil h1
  have hcw : ¬ c.isWhitespace := by
    rw [hcr] at h2
    simpa using h2
  obtain ⟨u, hu, hune⟩ :=
    splitWSAux_exists_ne_nil rest.length rest le_rfl [c] (by simp)
  have hmem : String.mk u ∈ splitWhitespace content := by
    unfold splitWhitespace
    rw [hcr]
    have heq : splitWSAux (c :: rest) [] = splitWSAux rest [c] := by
      simp [splitWSAux, hcw]
    rw [heq]
    exact List.mem_map.mpr ⟨u, hu, rfl⟩
  have : String.mk u ∈
      (splitWhitespace content).filter (fun t => t ≠ "") :=
    List.mem_filter.mpr ⟨hmem, by simpa using mk_ne_empty_of_ne_nil hune⟩
  have hpos := List.length_pos.mpr (List.ne_nil_of_mem this)
  exact hpos

/-- C6 (amended): for content that does not begin with whitespace (as every
ingested document, whose content is trimmed, satisfies) and positive window
size `W+1`, the chunker terminates and produces exactly
`ceil(L/(W+1)) = (L+W)/(W+1)` chunks — `L ≥ 1` being the number of
non-empty whitespace-delimited tokens — each with non-empty content and
with `chunkIndex` exactly `0..count-1` contiguous.  (For content with
leading whitespace the index sequence starts at 1, see the
counterexample.) -/
theorem splitDocumentIntoChunks_invariant (content : String) (W : ℕ)
    (h1 : content.toList ≠ []) (h2 : ¬ content.toList.headI.isWhitespace) :
    ∃ chunks,
      splitDocumentIntoChunks content (((W+1 : ℕ)) : Int) = some chunks ∧
      chunks.length
        = (nonemptyCount (splitWhitespace content) + W) / (W+1) ∧
      chunks.map ChunkDraft.chunkIndex
        = (List.range chunks.length).map Int.ofNat ∧
      (∀ ch ∈ chunks, ch.content ≠ "") ∧
      1 ≤ nonemptyCount (splitWhitespace content) := by
  have hfree := splitWhitespace_wsfree content
  have hdrop := splitWhitespace_dropLast_ne_nil content h1 h2
  obtain ⟨hmap, hne⟩ := chunkWindows_spec W (splitWhitespace content).length
    (splitWhitespace content) le_rfl hdrop hfree 0
  have hlen : (chunkWindows (W+1) (splitWhitespace content) 0).length
      = (nonemptyCount (splitWhitespace content) + W) / (W+1) := by
    simpa using congrArg List.length hmap
  refine ⟨chunkWindows (W+1) (splitWhitespace content) 0, ?_, hlen, ?_, hne,
    splitWhitespace_count_pos content h1 h2⟩
  · unfold splitDocumentIntoChunks
    have hbridge := chunkLoopFuel_eq_chunkWindows (splitWhitespace content) W
      ((splitWhitespace content).length + 1) 0 [] (by omega) (by omega)
    simpa using hbridge
  · rw [hmap, hlen]
    refine List.map_congr_left fun j _ => ?_
    simp [Int.ofNat_eq_natCast]

/-- Witness for `splitDocumentIntoChunks_invariant` at the document
`"a b c"` with window size 2. -/
theorem splitDocumentIntoChunks_invariant_witness :
    (("a b c" : String).toList ≠ [] ∧
      ¬ ("a b c" : String).toList.headI.isWhitespace) ∧
    (∃ chunks,
      splitDocumentIntoChunks "a b c" (((1+1 : ℕ)) : Int) = some chunks ∧
      chunks.length
        = (nonemptyCount (splitWhitespace "a b c") + 1) / (1+1) ∧
      chunks.map ChunkDraft.chunkIndex
        = (List.range chunks.length).map Int.ofNat ∧
      (∀ ch ∈ chunks, ch.content ≠ "") ∧
      1 ≤ nonemptyCount (splitWhitespace "a b c")) :=
  ⟨⟨by decide, by decide⟩,
    splitDocumentIntoChunks_invariant "a b c" 1 (by decide) (by decide)⟩

end SearchEngine
